import Mathlib

/-!
Verification of the transformer notebooks in this repository
(`src/Practice/transformer_in_pytorch.ipynb` and
`src/Practice/dot_product_qkv.ipynb`).

The notebooks' tensor code is shallowly embedded: matrices become
functions `Fin m → Fin n → ℝ`, integer token tensors become `List ℤ`,
fallible constructors and dataset accessors return `Except String _`,
and the greedy-decode `while` loop becomes a fuel-indexed recursion
(the fuel is shown sufficient whenever `max_len ≥ 1`, matching the
loop's own exit condition).
-/

namespace Transformer

/-! ## MultiHeadAttentionBlock construction

From `MultiHeadAttentionBlock.__init__`:
`assert d_model % h == 0`; on success it stores `d_k = d_model // h`.
The learned weight matrices `w_q, w_k, w_v, w_o` and the dropout module
carry no construction-time logic and are omitted from the record. -/

structure MultiHeadAttentionBlock where
  d_model : ℕ
  h : ℕ
  d_k : ℕ
deriving DecidableEq, Repr

/-- Embedding of `MultiHeadAttentionBlock.__init__(d_model, h, dropout)`:
the Python `assert d_model % h == 0, 'd_model 不能被 h 整除'` raises when the
condition fails, otherwise the block is built with `d_k = d_model // h`. -/
def MultiHeadAttentionBlock.mk_checked (d_model h : ℕ) :
    Except String MultiHeadAttentionBlock :=
  if d_model % h = 0 then
    .ok { d_model := d_model, h := h, d_k := d_model / h }
  else
    .error "d_model 不能被 h 整除"

/-! ## Causal mask

From `casual_mask(size)` (sic):
`mask = torch.triu(torch.ones(1, size, size), diagonal=1).type(torch.int)`
then `return mask == 0`.  The leading broadcast dimension of extent 1 is
dropped.  `torch.triu(·, diagonal=1)` keeps entry `(i, j)` iff `i + 1 ≤ j`. -/

/-- The strictly-upper-triangular ones matrix
`torch.triu(torch.ones(size, size), diagonal=1)` as an integer matrix. -/
def triu_ones (size : ℕ) : Fin size → Fin size → ℤ :=
  fun i j => if (i : ℕ) + 1 ≤ (j : ℕ) then 1 else 0

/-- Embedding of `casual_mask(size)`: the boolean matrix `triu_ones == 0`. -/
def casual_mask (size : ℕ) : Fin size → Fin size → Bool :=
  fun i j => triu_ones size i j == 0

/-! ## BilingualDataset.__getitem__

From `BilingualDataset.__getitem__`: padding counts are computed with
Python (signed) integer arithmetic, a `ValueError('句子太長')` is raised
when either is negative, and otherwise the three `seq_len`-long tensors
are assembled by concatenation. -/

/-- Embedding of the tensor-assembly part of `BilingualDataset.__getitem__`,
given the already-tokenized source and target ids.  Returns
`(encoder_input, decoder_input, label)` or the `ValueError` message. -/
def getItem (seq_len : ℕ) (sos_token eos_token pad_token : ℤ)
    (enc_input_tokens dec_input_tokens : List ℤ) :
    Except String (List ℤ × List ℤ × List ℤ) :=
  let enc_num_padding_tokens : ℤ :=
    (seq_len : ℤ) - enc_input_tokens.length - 2
  let dec_num_padding_tokens : ℤ :=
    (seq_len : ℤ) - dec_input_tokens.length - 1
  if enc_num_padding_tokens < 0 ∨ dec_num_padding_tokens < 0 then
    .error "句子太長"
  else
    let encoder_input :=
      [sos_token] ++ enc_input_tokens ++ [eos_token] ++
        List.replicate enc_num_padding_tokens.toNat pad_token
    let decoder_input :=
      [sos_token] ++ dec_input_tokens ++
        List.replicate dec_num_padding_tokens.toNat pad_token
    let label :=
      dec_input_tokens ++ [eos_token] ++
        List.replicate dec_num_padding_tokens.toNat pad_token
    .ok (encoder_input, decoder_input, label)

/-- Embedding of the dataset's
`(encoder_input != self.pad_token).unsqueeze(0).unsqueeze(0).int()`:
elementwise inequality with the pad id, cast to 0/1 integers (the two
added broadcast dimensions of extent 1 are dropped). -/
def encoder_mask (encoder_input : List ℤ) (pad_token : ℤ) : List ℤ :=
  encoder_input.map (fun t => if t ≠ pad_token then 1 else 0)

/-! ## Scaled dot-product attention

From the static method `MultiHeadAttentionBlock.attention(query, key,
value, mask, dropout)`.  One attention head is modelled: `query` has
shape `(m, d)`, `key` and `value` shape `(n, d)`.  `torch.softmax`
computes `exp(s - rowmax s) / Σ exp(s - rowmax s)`, which over ℝ equals
`exp s / Σ exp s`; it is embedded in that mathematical form.  The
optional dropout module is stochastic and is modelled as an optional
reweighting function, `none` being the `dropout is None` branch. -/

/-- Raw attention scores `(query @ key.transpose(-2, -1)) / math.sqrt(d_k)`
where `d_k = query.shape[-1]`. -/
noncomputable def attention_scores_raw {m n d : ℕ}
    (query : Fin m → Fin d → ℝ) (key : Fin n → Fin d → ℝ) :
    Fin m → Fin n → ℝ :=
  fun i j => (∑ t, query i t * key j t) / Real.sqrt d

/-- Embedding of `attention_scores.masked_fill_(mask == 0, -1e9)`. -/
def masked_fill {m n : ℕ} (scores : Fin m → Fin n → ℝ)
    (mask : Fin m → Fin n → ℤ) : Fin m → Fin n → ℝ :=
  fun i j => if mask i j = 0 then -(1e9 : ℝ) else scores i j

/-- Embedding of `attention_scores.softmax(dim=-1)` over ℝ. -/
noncomputable def softmax_rows {m n : ℕ} (scores : Fin m → Fin n → ℝ) :
    Fin m → Fin n → ℝ :=
  fun i j => Real.exp (scores i j) / ∑ t, Real.exp (scores i t)

/-- Embedding of `MultiHeadAttentionBlock.attention`: returns
`(attention_scores @ value, attention_scores)` after optional masking,
softmax and optional dropout, mirroring the source's reassignments. -/
noncomputable def attention {m n d : ℕ}
    (query : Fin m → Fin d → ℝ) (key : Fin n → Fin d → ℝ)
    (value : Fin n → Fin d → ℝ) (mask : Option (Fin m → Fin n → ℤ))
    (dropout : Option ((Fin m → Fin n → ℝ) → Fin m → Fin n → ℝ)) :
    (Fin m → Fin d → ℝ) × (Fin m → Fin n → ℝ) :=
  let attention_scores := attention_scores_raw query key
  let attention_scores :=
    match mask with
    | some M => masked_fill attention_scores M
    | none => attention_scores
  let attention_scores := softmax_rows attention_scores
  let attention_scores :=
    match dropout with
    | some f => f attention_scores
    | none => attention_scores
  (fun i t => ∑ j, attention_scores i j * value j t, attention_scores)

/-! Helper lemmas about `softmax_rows`, shared by several theorems. -/

/-- Each row of `softmax_rows` sums to 1 when the key axis is nonempty. -/
theorem softmax_rows_sum_eq_one {m n : ℕ} (hn : 0 < n)
    (scores : Fin m → Fin n → ℝ) (i : Fin m) :
    ∑ j, softmax_rows scores i j = 1 := by
  have hpos : 0 < ∑ t, Real.exp (scores i t) := by
    have : Nonempty (Fin n) := ⟨⟨0, hn⟩⟩
    exact Finset.sum_pos (fun t _ => Real.exp_pos _) Finset.univ_nonempty
  unfold softmax_rows
  rw [← Finset.sum_div, div_self (ne_of_gt hpos)]

/-- A single softmax weight is at most the ratio of its own exponential
to the exponential of any fixed entry of the same row. -/
theorem softmax_rows_le_ratio {m n : ℕ} (scores : Fin m → Fin n → ℝ)
    (i : Fin m) (j t : Fin n) :
    softmax_rows scores i j ≤ Real.exp (scores i j) / Real.exp (scores i t) := by
  unfold softmax_rows
  have hle : Real.exp (scores i t) ≤ ∑ u, Real.exp (scores i u) :=
    Finset.single_le_sum (fun u _ => le_of_lt (Real.exp_pos _))
      (Finset.mem_univ t)
  gcongr

end Transformer

namespace Transformer

/-- C3: constructing a multi-head attention block with model dimension
`d_model` not evenly divisible by head count `h` fails with the
configuration error, and construction succeeds with per-head dimension
`d_model / h` whenever `d_model` is divisible by `h` (head count positive,
as in every construction the notebook performs). -/
theorem mha_construction_divisibility (d_model h : ℕ) (_hpos : 0 < h) :
    (d_model % h = 0 →
      MultiHeadAttentionBlock.mk_checked d_model h =
        .ok { d_model := d_model, h := h, d_k := d_model / h }) ∧
    (d_model % h ≠ 0 →
      MultiHeadAttentionBlock.mk_checked d_model h =
        .error "d_model 不能被 h 整除") := by
  constructor
  · intro hdvd
    simp [MultiHeadAttentionBlock.mk_checked, hdvd]
  · intro hndvd
    simp [MultiHeadAttentionBlock.mk_checked, hndvd]

/-- Witness for C3 at `d_model = 512`, `h = 8`: construction succeeds with
per-head dimension `512 / 8 = 64`. -/
theorem mha_construction_divisibility_witness :
    MultiHeadAttentionBlock.mk_checked 512 8 =
      .ok { d_model := 512, h := 8, d_k := 64 } :=
  (mha_construction_divisibility 512 8 (by decide)).1 (by decide)

/-- C1: for every query, key, value and non-null mask, every key position
whose mask entry is 0 has its score overwritten with `-1e9` before
softmax, each query row of the returned attention-weight matrix sums
to 1 over the (nonempty) key axis, and the post-softmax weight of a
masked position is at most `exp (-1e9)` divided by the exponential of
any retained score of the same row — i.e. approximately 0. -/
theorem attention_mask_fill_row_sums {m n d : ℕ}
    (query : Fin m → Fin d → ℝ) (key : Fin n → Fin d → ℝ)
    (value : Fin n → Fin d → ℝ) (M : Fin m → Fin n → ℤ) (hn : 0 < n) :
    (∀ i j, M i j = 0 →
      masked_fill (attention_scores_raw query key) M i j = -(1e9 : ℝ)) ∧
    (∀ i, ∑ j, (attention query key value (some M) none).2 i j = 1) ∧
    (∀ i j, M i j = 0 → ∀ t,
      (attention query key value (some M) none).2 i j ≤
        Real.exp (-(1e9 : ℝ)) /
          Real.exp (masked_fill (attention_scores_raw query key) M i t)) := by
  refine ⟨fun i j hM => by simp [masked_fill, hM], fun i => ?_, fun i j hM t => ?_⟩
  · exact softmax_rows_sum_eq_one hn
      (masked_fill (attention_scores_raw query key) M) i
  · have h := softmax_rows_le_ratio
      (masked_fill (attention_scores_raw query key) M) i j t
    have hfill : masked_fill (attention_scores_raw query key) M i j
        = -(1e9 : ℝ) := by simp [masked_fill, hM]
    show softmax_rows (masked_fill (attention_scores_raw query key) M) i j ≤ _
    rwa [hfill] at h

/-- All-zero 1-by-2 attention inputs used to instantiate witnesses. -/
def wit_query : Fin 1 → Fin 1 → ℝ := fun _ _ => 0

/-- All-zero key of the witness instance. -/
def wit_key : Fin 2 → Fin 1 → ℝ := fun _ _ => 0

/-- All-zero value of the witness instance. -/
def wit_value : Fin 2 → Fin 1 → ℝ := fun _ _ => 0

/-- All-zero (everything hidden) mask of the witness instance. -/
def wit_mask : Fin 1 → Fin 2 → ℤ := fun _ _ => 0

/-- Witness for C1 at the concrete 1-query, 2-key all-zero instance. -/
theorem attention_mask_fill_row_sums_witness :
    masked_fill (attention_scores_raw wit_query wit_key) wit_mask 0 0
        = -(1e9 : ℝ) ∧
    (∑ j, (attention wit_query wit_key wit_value (some wit_mask) none).2 0 j)
        = 1 ∧
    (attention wit_query wit_key wit_value (some wit_mask) none).2 0 0 ≤
      Real.exp (-(1e9 : ℝ)) /
        Real.exp (masked_fill (attention_scores_raw wit_query wit_key)
          wit_mask 0 1) := by
  obtain ⟨h1, h2, h3⟩ := attention_mask_fill_row_sums
    wit_query wit_key wit_value wit_mask (by decide)
  exact ⟨h1 0 0 rfl, h2 0, h3 0 0 rfl 1⟩

/-- C4: for a query row whose mask entries are all 0, softmax is computed
on the masked-filled scores (their exponentials have a nonzero sum, so
the division is well defined — the no-NaN guard) and the resulting
weights of that row are uniform, `1 / n` at every position. -/
theorem attention_all_masked_uniform {m n d : ℕ}
    (query : Fin m → Fin d → ℝ) (key : Fin n → Fin d → ℝ)
    (value : Fin n → Fin d → ℝ) (M : Fin m → Fin n → ℤ) (i : Fin m)
    (hall : ∀ j, M i j = 0) (hn : 0 < n) :
    (∑ t, Real.exp (masked_fill (attention_scores_raw query key) M i t)) ≠ 0 ∧
    (∀ j, (attention query key value (some M) none).2 i j = 1 / (n : ℝ)) := by
  have hs : ∀ t, masked_fill (attention_scores_raw query key) M i t
      = -(1e9 : ℝ) := fun t => by simp [masked_fill, hall t]
  have hsum : (∑ t, Real.exp (masked_fill (attention_scores_raw query key) M i t))
      = (n : ℝ) * Real.exp (-(1e9 : ℝ)) := by
    rw [Finset.sum_congr rfl (fun t _ => by rw [hs t]),
      Finset.sum_const, Finset.card_univ, Fintype.card_fin, nsmul_eq_mul]
  have hnR : (0 : ℝ) < (n : ℝ) := by exact_mod_cast hn
  constructor
  · rw [hsum]
    exact ne_of_gt (mul_pos hnR (Real.exp_pos _))
  · intro j
    show softmax_rows (masked_fill (attention_scores_raw query key) M) i j
      = 1 / (n : ℝ)
    unfold softmax_rows
    rw [hs j, hsum, mul_comm, div_mul_eq_div_div,
      div_self (Real.exp_ne_zero _)]

/-- Witness for C4 at the concrete 1-query, 2-key all-hidden instance:
the two weights of the row are each `1 / 2`. -/
theorem attention_all_masked_uniform_witness :
    (∑ t, Real.exp (masked_fill (attention_scores_raw wit_query wit_key)
        wit_mask 0 t)) ≠ 0 ∧
    (attention wit_query wit_key wit_value (some wit_mask) none).2 0 1
      = 1 / ((2 : ℕ) : ℝ) := by
  obtain ⟨h1, h2⟩ := attention_all_masked_uniform
    wit_query wit_key wit_value wit_mask 0 (fun j => rfl) (by decide)
  exact ⟨h1, h2 1⟩

/-- C2: the causal mask for length `size` permits position `i` to attend
exactly to positions `0..i` (entry `(i, j)` allowed iff `j ≤ i`); it is
the complement of the strictly-upper-triangular ones matrix (whose entry
is 1 iff `i < j`); and under this mask the softmax mass a row places on
any future position `j > i` is bounded by `exp (-1e9)` divided by the
exponential of the retained score at the diagonal — i.e. zero mass up to
the `-1e9` fill. -/
theorem casual_mask_allows_iff (size : ℕ) (i j : Fin size) :
    (casual_mask size i j = true ↔ (j : ℕ) ≤ (i : ℕ)) ∧
    (triu_ones size i j = 1 ↔ (i : ℕ) < (j : ℕ)) ∧
    (∀ scores : Fin size → Fin size → ℝ, (i : ℕ) < (j : ℕ) →
      softmax_rows (masked_fill scores
          (fun a b => if casual_mask size a b then 1 else 0)) i j ≤
        Real.exp (-(1e9 : ℝ)) /
          Real.exp (masked_fill scores
            (fun a b => if casual_mask size a b then 1 else 0) i i)) := by
  have hiff : casual_mask size i j = true ↔ (j : ℕ) ≤ (i : ℕ) := by
    rw [show casual_mask size i j = (triu_ones size i j == 0) from rfl,
      beq_iff_eq]
    unfold triu_ones
    by_cases hij : (i : ℕ) + 1 ≤ (j : ℕ)
    · simp only [hij, if_true]
      constructor
      · intro h; exact absurd h one_ne_zero
      · intro h; omega
    · simp only [hij, if_false]
      constructor
      · intro _; omega
      · intro _; trivial
  refine ⟨hiff, ?_, ?_⟩
  · unfold triu_ones
    by_cases hij : (i : ℕ) + 1 ≤ (j : ℕ)
    · simp only [hij, if_true]
      constructor
      · intro _; omega
      · intro _; trivial
    · simp only [hij, if_false]
      constructor
      · intro h; exact absurd h zero_ne_one
      · intro h; omega
  · intro scores hij
    have hfalse : casual_mask size i j = false := by
      cases hc : casual_mask size i j
      · rfl
      · exact absurd (hiff.mp hc) (by omega)
    have hM : (fun a b => if casual_mask size a b then (1 : ℤ) else 0) i j
        = 0 := by simp [hfalse]
    have hfill : masked_fill scores
        (fun a b => if casual_mask size a b then (1 : ℤ) else 0) i j
        = -(1e9 : ℝ) := by simp [masked_fill, hM]
    have h := softmax_rows_le_ratio (masked_fill scores
      (fun a b => if casual_mask size a b then (1 : ℤ) else 0)) i j i
    rwa [hfill] at h

/-- Witness for C2 at `size = 2`, `i = 0`, `j = 1` with all-zero scores:
the mask forbids attending forward and the forward softmax mass obeys
the `exp (-1e9)` bound. -/
theorem casual_mask_allows_iff_witness :
    (casual_mask 2 0 1 = true ↔ (1 : ℕ) ≤ (0 : ℕ)) ∧
    softmax_rows (masked_fill (fun _ _ => (0 : ℝ))
        (fun a b => if casual_mask 2 a b then 1 else 0)) 0 1 ≤
      Real.exp (-(1e9 : ℝ)) /
        Real.exp (masked_fill (fun _ _ => (0 : ℝ))
          (fun a b => if casual_mask 2 a b then 1 else 0) 0 0) := by
  obtain ⟨h1, _, h3⟩ := casual_mask_allows_iff 2 0 1
  exact ⟨h1, h3 (fun _ _ => (0 : ℝ)) (by decide)⟩


/-- Under the length check's failure condition `getItem` returns the
`ValueError`. -/
theorem getItem_error_of_too_long (seq_len : ℕ) (sos_token eos_token pad_token : ℤ)
    (enc_input_tokens dec_input_tokens : List ℤ)
    (h : (seq_len : ℤ) - enc_input_tokens.length - 2 < 0 ∨
      (seq_len : ℤ) - dec_input_tokens.length - 1 < 0) :
    getItem seq_len sos_token eos_token pad_token enc_input_tokens
      dec_input_tokens = .error "句子太長" := by
  simp only [getItem]
  rw [if_pos h]

/-- Under the length check's success condition `getItem` returns the three
concatenated tensors. -/
theorem getItem_ok_of_fits (seq_len : ℕ) (sos_token eos_token pad_token : ℤ)
    (enc_input_tokens dec_input_tokens : List ℤ)
    (h : ¬((seq_len : ℤ) - enc_input_tokens.length - 2 < 0 ∨
      (seq_len : ℤ) - dec_input_tokens.length - 1 < 0)) :
    getItem seq_len sos_token eos_token pad_token enc_input_tokens
      dec_input_tokens = .ok
      ([sos_token] ++ enc_input_tokens ++ [eos_token] ++
        List.replicate ((seq_len : ℤ) - enc_input_tokens.length - 2).toNat
          pad_token,
       [sos_token] ++ dec_input_tokens ++
        List.replicate ((seq_len : ℤ) - dec_input_tokens.length - 1).toNat
          pad_token,
       dec_input_tokens ++ [eos_token] ++
        List.replicate ((seq_len : ℤ) - dec_input_tokens.length - 1).toNat
          pad_token) := by
  simp only [getItem]
  rw [if_neg h]

/-- C7: fetching an example raises the per-example `ValueError` exactly
when the tokenized source exceeds `seq_len - 2` tokens or the tokenized
target exceeds `seq_len - 1` tokens (integer arithmetic, as in Python);
there is no truncation fallback (the error is the only non-`ok` outcome),
and on success the encoder input, decoder input and label all have length
exactly `seq_len`. -/
theorem getItem_length_contract (seq_len : ℕ)
    (sos_token eos_token pad_token : ℤ)
    (enc_input_tokens dec_input_tokens : List ℤ) :
    ((∃ msg, getItem seq_len sos_token eos_token pad_token enc_input_tokens
        dec_input_tokens = .error msg) ↔
      ((enc_input_tokens.length : ℤ) > (seq_len : ℤ) - 2 ∨
       (dec_input_tokens.length : ℤ) > (seq_len : ℤ) - 1)) ∧
    (∀ e d l, getItem seq_len sos_token eos_token pad_token enc_input_tokens
        dec_input_tokens = .ok (e, d, l) →
      e.length = seq_len ∧ d.length = seq_len ∧ l.length = seq_len) := by
  by_cases hcond : ((seq_len : ℤ) - enc_input_tokens.length - 2 < 0 ∨
      (seq_len : ℤ) - dec_input_tokens.length - 1 < 0)
  · have herr := getItem_error_of_too_long seq_len sos_token eos_token
      pad_token enc_input_tokens dec_input_tokens hcond
    constructor
    · constructor
      · intro _; omega
      · intro _; exact ⟨_, herr⟩
    · intro e d l hok
      rw [herr] at hok
      exact absurd hok (by simp)
  · have hok := getItem_ok_of_fits seq_len sos_token eos_token
      pad_token enc_input_tokens dec_input_tokens hcond
    constructor
    · constructor
      · rintro ⟨msg, hmsg⟩
        rw [hok] at hmsg
        exact absurd hmsg (by simp)
      · intro hlong; omega
    · intro e d l h
      rw [hok] at h
      obtain ⟨he, hd, hl⟩ : _ ∧ _ ∧ _ := by
        have := h
        simp only [Except.ok.injEq, Prod.mk.injEq] at this
        exact ⟨this.1, this.2.1, this.2.2⟩
      subst he; subst hd; subst hl
      refine ⟨?_, ?_, ?_⟩ <;>
        (simp only [List.length_append, List.length_replicate,
          List.length_cons, List.length_nil]; omega)

/-- Witness for C7: `seq_len = 6`, a 3-token source and a 2-token target
fit exactly, and all three outputs have length 6. -/
theorem getItem_length_contract_witness :
    ((∃ msg, getItem 6 2 3 1 [10, 11, 12] [20, 21] = .error msg) ↔
      (((3 : ℕ) : ℤ) > (6 : ℤ) - 2 ∨ ((2 : ℕ) : ℤ) > (6 : ℤ) - 1)) ∧
    ([2, 10, 11, 12, 3, 1].length = 6 ∧ [2, 20, 21, 1, 1, 1].length = 6 ∧
      [20, 21, 3, 1, 1, 1].length = 6) := by
  obtain ⟨h1, h2⟩ := getItem_length_contract 6 2 3 1 [10, 11, 12] [20, 21]
  refine ⟨by simpa using h1, ?_⟩
  exact h2 [2, 10, 11, 12, 3, 1] [2, 20, 21, 1, 1, 1] [20, 21, 3, 1, 1, 1]
    (by rfl)

/-- C8: for every example the dataset produces, the encoder padding mask
has the encoder input's length and is 0 exactly at the positions where
the encoder input holds the pad token id, nonzero (1) everywhere else. -/
theorem encoder_mask_zero_iff_pad (seq_len : ℕ)
    (sos_token eos_token pad_token : ℤ)
    (enc_input_tokens dec_input_tokens e d l : List ℤ)
    (hok : getItem seq_len sos_token eos_token pad_token enc_input_tokens
      dec_input_tokens = .ok (e, d, l)) :
    (encoder_mask e pad_token).length = seq_len ∧
    (∀ (i : ℕ) (h1 : i < (encoder_mask e pad_token).length)
      (h2 : i < e.length),
      ((encoder_mask e pad_token).get ⟨i, h1⟩ = 0 ↔ e.get ⟨i, h2⟩ = pad_token) ∧
      (e.get ⟨i, h2⟩ ≠ pad_token → (encoder_mask e pad_token).get ⟨i, h1⟩ = 1)) := by
  constructor
  · have hlen : e.length = seq_len :=
      ((getItem_length_contract seq_len sos_token eos_token pad_token
        enc_input_tokens dec_input_tokens).2 e d l hok).1
    simpa [encoder_mask] using hlen
  · intro i h1 h2
    have hget : (encoder_mask e pad_token).get ⟨i, h1⟩ =
        if e.get ⟨i, h2⟩ ≠ pad_token then 1 else 0 := by
      simp [encoder_mask, List.get_eq_getElem, List.getElem_map]
    by_cases hp : e.get ⟨i, h2⟩ = pad_token
    · rw [hget]
      simp [hp]
    · rw [hget]
      simp [hp]

/-- Witness for C8: `seq_len = 10` with a 5-token source pads positions
7, 8, 9 with the pad id 1, and the encoder mask is 0 exactly there
(checked at the pad position 7 and the non-pad position 0). -/
theorem encoder_mask_zero_iff_pad_witness :
    (encoder_mask [2, 10, 11, 12, 13, 14, 3, 1, 1, 1] 1).length = 10 ∧
    ((encoder_mask [2, 10, 11, 12, 13, 14, 3, 1, 1, 1] 1).get
        ⟨7, by decide⟩ = 0 ↔
      ([2, 10, 11, 12, 13, 14, 3, 1, 1, 1] : List ℤ).get
        ⟨7, by decide⟩ = 1) ∧
    (encoder_mask [2, 10, 11, 12, 13, 14, 3, 1, 1, 1] 1).get
        ⟨0, by decide⟩ = 1 := by
  obtain ⟨hlen, hiff⟩ := encoder_mask_zero_iff_pad 10 2 3 1
    [10, 11, 12, 13, 14] [20] [2, 10, 11, 12, 13, 14, 3, 1, 1, 1]
    [2, 20, 1, 1, 1, 1, 1, 1, 1, 1] [20, 3, 1, 1, 1, 1, 1, 1, 1, 1]
    (by rfl)
  exact ⟨hlen, (hiff 7 (by decide) (by decide)).1,
    (hiff 0 (by decide) (by decide)).2 (by decide)⟩

/-! ## Positional encoding

From `PositionalEncoding.__init__`:
`div_term = torch.exp(torch.arange(0, d_model, 2).float() *
(-math.log(10000.0) / d_model))`, then `pe[:, 0::2] = sin(position *
div_term)` and `pe[:, 1::2] = cos(position * div_term)`.  Column `j`
therefore uses the arange value `(j / 2) * 2` (i.e. `j` rounded down to
even). -/

/-- Embedding of `div_term`, indexed by the arange value `a ∈ {0,2,4,…}`. -/
noncomputable def div_term (d_model : ℕ) (a : ℕ) : ℝ :=
  Real.exp ((a : ℝ) * (-(Real.log 10000) / (d_model : ℝ)))

/-- Embedding of the positional-encoding table `pe` of
`PositionalEncoding.__init__`: sine on even dimension indices, cosine on
odd dimension indices. -/
noncomputable def positional_encoding (d_model seq_len : ℕ) :
    Fin seq_len → Fin d_model → ℝ :=
  fun pos j =>
    if (j : ℕ) % 2 = 0 then
      Real.sin ((pos : ℕ) * div_term d_model ((j : ℕ) / 2 * 2))
    else
      Real.cos ((pos : ℕ) * div_term d_model ((j : ℕ) / 2 * 2))

/-- C6: the positional-encoding table is a deterministic (pure) function
of `(d_model, seq_len)` — regenerating it yields the identical table —
and its row at position 0 is `(sin 0, cos 0, sin 0, cos 0, …)`, i.e. 0 at
even dimension indices and 1 at odd ones. -/
theorem positional_encoding_deterministic_row_zero (d_model seq_len : ℕ)
    (h : 0 < seq_len) :
    positional_encoding d_model seq_len = positional_encoding d_model seq_len ∧
    (∀ j : Fin d_model,
      positional_encoding d_model seq_len ⟨0, h⟩ j =
        if (j : ℕ) % 2 = 0 then Real.sin 0 else Real.cos 0) ∧
    (∀ j : Fin d_model,
      positional_encoding d_model seq_len ⟨0, h⟩ j =
        if (j : ℕ) % 2 = 0 then 0 else 1) := by
  refine ⟨rfl, fun j => ?_, fun j => ?_⟩ <;>
    · unfold positional_encoding
      by_cases hj : (j : ℕ) % 2 = 0 <;>
        simp [hj]

/-- Witness for C6 at `d_model = 4`, `seq_len = 2`: the entries of row 0
at dimensions 0 and 1 are 0 and 1. -/
theorem positional_encoding_deterministic_row_zero_witness :
    positional_encoding 4 2 ⟨0, by decide⟩ ⟨0, by decide⟩ = 0 ∧
    positional_encoding 4 2 ⟨0, by decide⟩ ⟨1, by decide⟩ = 1 := by
  obtain ⟨-, -, hrow⟩ :=
    positional_encoding_deterministic_row_zero 4 2 (by decide)
  constructor
  · have h0 := hrow ⟨0, by decide⟩
    simpa using h0
  · have h1 := hrow ⟨1, by decide⟩
    simpa using h1

/-! ## The attention-exercise notebook's softmax helper

From `dot_product_qkv.ipynb`:
`exp_x = np.exp(x - np.max(x))` followed by
`return np.exp(x - np.max(x)) / exp_x.sum(axis=-1, keepdims=True)` —
the numerator recomputes `exp_x`.  A row vector is modelled; `np.max`
over a nonempty vector is its supremum, modelled with `⨆`. -/

/-- Embedding of the helper `softmax(x)` with its redundantly recomputed
numerator kept, exactly as the source writes it. -/
noncomputable def softmax {n : ℕ} (x : Fin n → ℝ) : Fin n → ℝ :=
  let exp_x := fun j => Real.exp (x j - ⨆ k, x k)
  fun j => Real.exp (x j - ⨆ k, x k) / ∑ k, exp_x k

/-- The non-redundant numerically-stable softmax `exp_x / exp_x.sum(...)`
with `exp_x = exp(x - max x)`, written from the spec's words as the
refinement target for C9. -/
noncomputable def stable_softmax {n : ℕ} (x : Fin n → ℝ) : Fin n → ℝ :=
  let exp_x := fun j => Real.exp (x j - ⨆ k, x k)
  fun j => exp_x j / ∑ k, exp_x k

/-- C9: the exercise notebook's softmax helper subtracts the maximum
before exponentiation, its redundant recomputation of the numerator is
correctness-neutral — it is extensionally equal to the non-redundant
stable softmax — and each output row sums to 1 (key axis nonempty). -/
theorem softmax_redundancy_neutral {n : ℕ} (x : Fin n → ℝ) (hn : 0 < n) :
    softmax x = stable_softmax x ∧ (∑ j, softmax x j) = 1 := by
  refine ⟨rfl, ?_⟩
  have hne : Nonempty (Fin n) := ⟨⟨0, hn⟩⟩
  have hpos : 0 < ∑ k, Real.exp (x k - ⨆ t, x t) :=
    Finset.sum_pos (fun k _ => Real.exp_pos _) Finset.univ_nonempty
  show (∑ j, Real.exp (x j - ⨆ k, x k) / ∑ k, Real.exp (x k - ⨆ t, x t)) = 1
  rw [← Finset.sum_div, div_self (ne_of_gt hpos)]

/-- Witness for C9 at the constant-zero 2-vector. -/
theorem softmax_redundancy_neutral_witness :
    softmax (fun _ : Fin 2 => (0 : ℝ)) =
      stable_softmax (fun _ : Fin 2 => (0 : ℝ)) ∧
    (∑ j, softmax (fun _ : Fin 2 => (0 : ℝ)) j) = 1 :=
  softmax_redundancy_neutral (fun _ : Fin 2 => (0 : ℝ)) (by decide)

/-! ## Greedy decoding

From `greedy_decode(model, source, source_mask, tokenizer_src,
tokenizer_tgt, max_len, device)`.  The trained network is abstracted as a
record of the four operations the routine calls: `model.encode`,
`model.decode`, the composition `model.project(out[:, -1])`
(`projectLast`) and the index extraction `torch.max(prob, dim=1)`
(`argmaxTok`).  The decoder mask handed to `decode` is
`casual_mask(decoder_input.size(1))`, packaged with its size.  The
`while True` loop is a fuel-indexed recursion; the entry point supplies
fuel `max_len`, shown sufficient whenever `max_len ≥ 1`. -/

structure GreedyModel (EncOut DecOut Prob SrcMask : Type) where
  encode : List ℤ → SrcMask → EncOut
  decode : EncOut → SrcMask → List ℤ →
    ((size : ℕ) × (Fin size → Fin size → Bool)) → DecOut
  projectLast : DecOut → Prob
  argmaxTok : Prob → ℤ

/-- The body of `greedy_decode`'s `while True` loop.  `none` is returned
only on fuel exhaustion. -/
def greedy_loop {EncOut DecOut Prob SrcMask : Type}
    (model : GreedyModel EncOut DecOut Prob SrcMask)
    (encoder_output : EncOut) (source_mask : SrcMask) (eos_idx : ℤ)
    (max_len : ℕ) : ℕ → List ℤ → Option (List ℤ)
  | 0, _ => none
  | fuel + 1, decoder_input =>
    if decoder_input.length = max_len then some decoder_input
    else
      let decoder_mask := casual_mask decoder_input.length
      let out := model.decode encoder_output source_mask decoder_input
        ⟨decoder_input.length, decoder_mask⟩
      let prob := model.projectLast out
      let next_word := model.argmaxTok prob
      let decoder_input2 := decoder_input ++ [next_word]
      if next_word = eos_idx then some decoder_input2
      else greedy_loop model encoder_output source_mask eos_idx max_len
        fuel decoder_input2

/-- Embedding of `greedy_decode`: the source is encoded once, the decoder
input is started as the single start token, and the loop runs with fuel
`max_len`. -/
def greedy_decode {EncOut DecOut Prob SrcMask : Type}
    (model : GreedyModel EncOut DecOut Prob SrcMask)
    (source : List ℤ) (source_mask : SrcMask) (sos_idx eos_idx : ℤ)
    (max_len : ℕ) : Option (List ℤ) :=
  let encoder_output := model.encode source source_mask
  greedy_loop model encoder_output source_mask eos_idx max_len max_len
    [sos_idx]

/-- With enough fuel the loop always returns a sequence extending its
current decoder input by at most `max_len - length` appended tokens. -/
theorem greedy_loop_total {EncOut DecOut Prob SrcMask : Type}
    (model : GreedyModel EncOut DecOut Prob SrcMask)
    (encoder_output : EncOut) (source_mask : SrcMask) (eos_idx : ℤ)
    (max_len : ℕ) :
    ∀ (fuel : ℕ) (cur : List ℤ), cur.length ≤ max_len →
      max_len - cur.length < fuel →
      ∃ out, greedy_loop model encoder_output source_mask eos_idx max_len
          fuel cur = some out ∧
        cur <+: out ∧ out.length ≤ max_len := by
  intro fuel
  induction fuel with
  | zero => intro cur _ hlt; omega
  | succ f ih =>
    intro cur hle hlt
    by_cases hmax : cur.length = max_len
    · exact ⟨cur, by simp [greedy_loop, hmax], List.prefix_refl cur,
        le_of_eq hmax⟩
    · have hlt' : cur.length < max_len := lt_of_le_of_ne hle hmax
      by_cases heos : model.argmaxTok (model.projectLast
          (model.decode encoder_output source_mask cur
            ⟨cur.length, casual_mask cur.length⟩)) = eos_idx
      · refine ⟨cur ++ [eos_idx], ?_, ⟨[eos_idx], rfl⟩, by
          simp only [List.length_append, List.length_cons,
            List.length_nil]; omega⟩
        simp [greedy_loop, hmax, heos]
      · obtain ⟨out, hout, hpre, hlen⟩ := ih
          (cur ++ [model.argmaxTok (model.projectLast
            (model.decode encoder_output source_mask cur
              ⟨cur.length, casual_mask cur.length⟩))])
          (by simp only [List.length_append, List.length_cons,
            List.length_nil]; omega)
          (by simp only [List.length_append, List.length_cons,
            List.length_nil]; omega)
        refine ⟨out, ?_, ?_, hlen⟩
        · rw [show greedy_loop model encoder_output source_mask eos_idx
            max_len (f + 1) cur = greedy_loop model encoder_output
              source_mask eos_idx max_len f
              (cur ++ [model.argmaxTok (model.projectLast
                (model.decode encoder_output source_mask cur
                  ⟨cur.length, casual_mask cur.length⟩))]) from by
            simp [greedy_loop, hmax, heos]]
          exact hout
        · exact List.IsPrefix.trans ⟨_, rfl⟩ hpre

/-- C10: for every model, source, source mask and `max_len ≥ 1` the
greedy-decode loop terminates with a result (the fuel is never
exhausted); the returned sequence begins with the start token and its
length is at least 1 and at most `max_len`. -/
theorem greedy_decode_terminates {EncOut DecOut Prob SrcMask : Type}
    (model : GreedyModel EncOut DecOut Prob SrcMask)
    (source : List ℤ) (source_mask : SrcMask) (sos_idx eos_idx : ℤ)
    (max_len : ℕ) (hmax : 1 ≤ max_len) :
    ∃ out, greedy_decode model source source_mask sos_idx eos_idx max_len
        = some out ∧
      out.head? = some sos_idx ∧ 1 ≤ out.length ∧ out.length ≤ max_len := by
  have hle : ([sos_idx] : List ℤ).length ≤ max_len := by
    simp only [List.length_cons, List.length_nil]
    omega
  have hfuel : max_len - ([sos_idx] : List ℤ).length < max_len := by
    simp only [List.length_cons, List.length_nil]
    omega
  obtain ⟨out, hout, hpre, hlen⟩ := greedy_loop_total model
    (model.encode source source_mask) source_mask eos_idx max_len max_len
    [sos_idx] hle hfuel
  obtain ⟨t, rfl⟩ := hpre
  exact ⟨[sos_idx] ++ t, hout, rfl, by simp, hlen⟩

/-- Witness inputs for the greedy-decode claims: a degenerate model whose
projection always selects token 2. -/
def const_eos_model : GreedyModel Unit Unit Unit (List ℤ) where
  encode := fun _ _ => ()
  decode := fun _ _ _ _ => ()
  projectLast := fun _ => ()
  argmaxTok := fun _ => 2

/-- Witness for C10 at `max_len = 1`: the loop exits immediately with the
start token alone. -/
theorem greedy_decode_terminates_witness :
    ∃ out, greedy_decode const_eos_model [5] [1] 0 2 1 = some out ∧
      out.head? = some 0 ∧ 1 ≤ out.length ∧ out.length ≤ 1 :=
  greedy_decode_terminates const_eos_model [5] [1] 0 2 1 (by decide)

/-- C5: greedy decoding encodes the source exactly once and starts the
decoder input as the single start token (the routine literally is the
loop applied to that one encoder output and `[sos_idx]`, first
conjunct); and whenever the projection always selects the end-token id
and `max_len ≥ 2`, it terminates producing exactly
`[sos_idx, eos_idx]` — length 2, so the `max_len` exit is never taken. -/
theorem greedy_decode_immediate_eos {EncOut DecOut Prob SrcMask : Type}
    (model : GreedyModel EncOut DecOut Prob SrcMask)
    (source : List ℤ) (source_mask : SrcMask) (sos_idx eos_idx : ℤ)
    (max_len : ℕ)
    (halways : ∀ d : DecOut, model.argmaxTok (model.projectLast d) = eos_idx)
    (hmax : 2 ≤ max_len) :
    greedy_decode model source source_mask sos_idx eos_idx max_len =
      greedy_loop model (model.encode source source_mask) source_mask
        eos_idx max_len max_len [sos_idx] ∧
    greedy_decode model source source_mask sos_idx eos_idx max_len =
      some [sos_idx, eos_idx] := by
  refine ⟨rfl, ?_⟩
  obtain ⟨f, rfl⟩ : ∃ f, max_len = f + 1 := ⟨max_len - 1, by omega⟩
  show greedy_loop model (model.encode source source_mask) source_mask
    eos_idx (f + 1) (f + 1) [sos_idx] = some [sos_idx, eos_idx]
  have h1 : ¬(([sos_idx] : List ℤ).length = f + 1) := by
    simp only [List.length_cons, List.length_nil]
    omega
  have h2 : ¬f = 0 := by omega
  simp [greedy_loop, h1, h2, halways]

/-- Witness for C5: the degenerate always-eos model with `max_len = 4`
produces exactly `[0, 2]`. -/
theorem greedy_decode_immediate_eos_witness :
    greedy_decode const_eos_model [5] [1] 0 2 4 = some [0, 2] :=
  (greedy_decode_immediate_eos const_eos_model [5] [1] 0 2 4
    (fun _ => rfl) (by decide)).2
